import Mathlib

/-!
Shallow embedding of the `SimpleLocalRAG` core of `simple_rag.py`:
the document extractor (`_extract_documents_from_analysis` together with the
per-file exception handling of `_load_documents`) and the similarity ranker
(`search`).  JSON-like values are modelled by `JValue`; Python strings are
Lean `String`s (both are sequences of unicode code points, so Python slicing
`s[:n]` is `List.take` on the character data and `str.strip()` is modelled by
`pystrip`).  The TF-IDF vectorizer and cosine similarity are external library
calls (sklearn); the ranker is therefore modelled over the per-chunk
similarity row they produce, kept abstract as one rational per indexed chunk.
-/

/-- Model of a parsed JSON value (what `json.load` hands to the extractor). -/
inductive JValue where
  | null : JValue
  | bool : Bool → JValue
  | num : Int → JValue
  | str : String → JValue
  | arr : List JValue → JValue
  | obj : List (String × JValue) → JValue

/-- Python truthiness of a value, as used by `if policy:` and `if briefing:`. -/
def truthy : JValue → Bool
  | .null => false
  | .bool b => b
  | .num n => n != 0
  | .str s => s != ""
  | .arr xs => !xs.isEmpty
  | .obj kvs => !kvs.isEmpty

mutual

/-- Python `repr` of a value (used by `str()` on lists and dicts). -/
def jrepr : JValue → String
  | .null => "None"
  | .bool true => "True"
  | .bool false => "False"
  | .num n => toString n
  | .str s => "'" ++ s ++ "'"
  | .arr xs => "[" ++ jreprSep xs ++ "]"
  | .obj kvs => "\x7b" ++ jreprObjSep kvs ++ "\x7d"

/-- Comma-separated `repr`s of the elements of a Python list. -/
def jreprSep : List JValue → String
  | [] => ""
  | [x] => jrepr x
  | x :: y :: xs => jrepr x ++ ", " ++ jreprSep (y :: xs)

/-- Comma-separated `repr`s of the entries of a Python dict. -/
def jreprObjSep : List (String × JValue) → String
  | [] => ""
  | [(k, v)] => "'" ++ k ++ "': " ++ jrepr v
  | (k, v) :: p :: kvs => "'" ++ k ++ "': " ++ jrepr v ++ ", " ++ jreprObjSep (p :: kvs)

end

/-- Python `str()` of a value, as interpolated by the f-strings building chunk text. -/
def jstr : JValue → String
  | .str s => s
  | v => jrepr v

/-- Python `dict.get(k, default)` on a dict already known to be one. -/
def dget (kvs : List (String × JValue)) (k : String) (dflt : JValue) : JValue :=
  (kvs.lookup k).getD dflt

/-- Python `v.get(k, default)` on an arbitrary value: raises `AttributeError`
when `v` is not a dict. -/
def jget (v : JValue) (k : String) (dflt : JValue) : Except String JValue :=
  match v with
  | .obj kvs => .ok (dget kvs k dflt)
  | _ => .error "AttributeError: .get on a non-dict"

/-- Python `for x in v:` — the sequence of iterates, or a `TypeError`.
Iterating a string yields its characters as one-character strings; iterating a
dict yields its keys. -/
def jiter : JValue → Except String (List JValue)
  | .arr xs => .ok xs
  | .str s => .ok (s.data.map (fun c => .str (String.mk [c])))
  | .obj kvs => .ok (kvs.map (fun kv => .str kv.1))
  | _ => .error "TypeError: not iterable"

/-- Python slicing `s[:n]` (by code points). -/
def pytake (s : String) (n : Nat) : String :=
  ⟨s.data.take n⟩

/-- Characters removed by Python `str.strip()`. -/
def pyspace (c : Char) : Bool :=
  c == ' ' || c == '\t' || c == '\n' || c == '\x0d' || c == '\x0b' || c == '\x0c'

/-- Python `s.strip()`: remove leading and trailing whitespace. -/
def pystrip (s : String) : String :=
  ⟨((s.data.dropWhile pyspace).reverse.dropWhile pyspace).reverse⟩

/-- One entry of `self.documents`: the chunk text, the `"type"` metadata entry
(always a string literal in the source), and the remaining metadata entries in
dict order. -/
structure Chunk where
  content : String
  mtype : String
  meta : List (String × JValue)

instance : Inhabited Chunk := ⟨⟨"", "", []⟩⟩

/-- Outcome of running a piece of the extractor: the chunks it appended to
`self.documents`, and the exception it raised, if any.  Appends made before a
raise are kept, mirroring the mutation of `self.documents` in the source. -/
abbrev ExtractOut := List Chunk × Option String

/-- Sequence a `.get`-style step that appends nothing before it can raise. -/
def bindJ (r : Except String JValue) (k : JValue → ExtractOut) : ExtractOut :=
  match r with
  | .error e => ([], some e)
  | .ok v => k v

/-- Sequence a `for`-statement's iteration step: raises when the iterated
value is not iterable, before any chunk of the loop is appended. -/
def bindIter (r : Except String (List JValue)) (k : List JValue → ExtractOut) : ExtractOut :=
  match r with
  | .error e => ([], some e)
  | .ok l => k l

/-- Sequence two extractor pieces: chunks of the first are kept even when the
second raises. -/
def andThen (a : ExtractOut) (k : Unit → ExtractOut) : ExtractOut :=
  match a with
  | (cs, some e) => (cs, some e)
  | (cs, none) =>
    match k () with
    | (cs', e) => (cs ++ cs', e)

/-- Lines 71–82 of `simple_rag.py`: the policy-summary section. -/
def policySection (stage1 : JValue) (source_file : String) : ExtractOut :=
  bindJ (jget stage1 "policy_plain_english_summary" (.obj [])) fun policy =>
  if truthy policy then
    bindJ (jget policy "what_happened" (.str "")) fun wh =>
    bindJ (jget policy "why_important" (.str "")) fun wi =>
    bindJ (jget policy "key_quote_plain_english" (.str "")) fun kq =>
    let text := jstr wh ++ " " ++ jstr wi ++ " " ++ jstr kq
    (if pystrip text != "" then
      [⟨text, "policy_summary",
        [("source_file", .str source_file), ("section", .str "stage_1_policy_summary")]⟩]
     else [], none)
  else ([], none)

/-- Lines 88–102: the body of the `for doc in new_docs:` loop. -/
def newDocsLoop (source_file : String) : List JValue → ExtractOut
  | [] => ([], none)
  | doc :: rest =>
    match doc with
    | .obj kvs =>
      let text := jstr (dget kvs "title" (.str "")) ++ " "
        ++ jstr (dget kvs "document_summary" (.str "")) ++ " "
        ++ jstr (dget kvs "full_opening" (.str ""))
      let here : List Chunk :=
        if pystrip text != "" then
          [⟨pytake text 1500, "document",
            [("title", dget kvs "title" (.str "Untitled")),
             ("url", dget kvs "url" (.str "")),
             ("date", dget kvs "date" (.str "")),
             ("source_file", .str source_file),
             ("section", .str "stage_1_documents")]⟩]
        else []
      match newDocsLoop source_file rest with
      | (cs, e) => (here ++ cs, e)
    | _ => ([], some "AttributeError: .get on a non-dict")

/-- Lines 85–102: the new-documents section. -/
def docsSection (stage1 : JValue) (source_file : String) : ExtractOut :=
  bindJ (jget stage1 "comprehensive_document_analysis" (.obj [])) fun doc_analysis =>
  bindJ (jget doc_analysis "new_documents" (.arr [])) fun new_docs =>
  bindIter (jiter new_docs) (newDocsLoop source_file)

/-- Lines 106–117: the body of the `for req in requirements:` loop. -/
def reqsLoop (source_file : String) : List JValue → ExtractOut
  | [] => ([], none)
  | req :: rest =>
    match req with
    | .obj kvs =>
      let text := jstr (dget kvs "requirement_type" (.str "")) ++ " "
        ++ jstr (dget kvs "exact_text" (.str "")) ++ " "
        ++ jstr (dget kvs "full_evidence_quote" (.str ""))
      let here : List Chunk :=
        if pystrip text != "" then
          [⟨pytake text 1000, "requirement",
            [("requirement_type", dget kvs "requirement_type" (.str "")),
             ("source_file", .str source_file),
             ("section", .str "stage_1_requirements")]⟩]
        else []
      match reqsLoop source_file rest with
      | (cs, e) => (here ++ cs, e)
    | _ => ([], some "AttributeError: .get on a non-dict")

/-- Lines 105–117: the requirements section. -/
def reqsSection (stage1 : JValue) (source_file : String) : ExtractOut :=
  bindJ (jget stage1 "detailed_requirements_extraction" (.arr [])) fun requirements =>
  bindIter (jiter requirements) (reqsLoop source_file)

/-- Lines 123–134: the executive-briefing section. -/
def briefingSection (stage3 : JValue) (source_file : String) : ExtractOut :=
  bindJ (jget stage3 "executive_briefing" (.obj [])) fun briefing =>
  if truthy briefing then
    bindJ (jget briefing "bottom_line" (.str "")) fun bl =>
    bindJ (jget briefing "board_briefing" (.str "")) fun bb =>
    let text := jstr bl ++ " " ++ jstr bb
    (if pystrip text != "" then
      [⟨text, "executive_summary",
        [("source_file", .str source_file), ("section", .str "stage_3_briefing")]⟩]
     else [], none)
  else ([], none)

/-- Lines 140–150: the body of the `for resp in responses:` loop. -/
def patternsLoop (source_file : String) : List JValue → ExtractOut
  | [] => ([], none)
  | resp :: rest =>
    match resp with
    | .obj kvs =>
      let text := jstr (dget kvs "common_response" (.str "")) ++ " "
        ++ jstr (dget kvs "typical_timeframes" (.str "")) ++ " "
        ++ jstr (dget kvs "commonly_involved_roles" (.str ""))
      let here : List Chunk :=
        if pystrip text != "" then
          [⟨pytake text 1000, "action_pattern",
            [("source_file", .str source_file),
             ("section", .str "stage_3_patterns")]⟩]
        else []
      match patternsLoop source_file rest with
      | (cs, e) => (here ++ cs, e)
    | _ => ([], some "AttributeError: .get on a non-dict")

/-- Lines 137–150: the industry-response-patterns section. -/
def patternsSection (stage3 : JValue) (source_file : String) : ExtractOut :=
  bindJ (jget stage3 "industry_response_patterns" (.obj [])) fun patterns =>
  bindJ (jget patterns "typical_immediate_responses" (.arr [])) fun responses =>
  bindIter (jiter responses) (patternsLoop source_file)

/-- Model of `_extract_documents_from_analysis(data, source_file)`: the chunks
appended to `self.documents`, in order, together with the exception raised
partway through, if any. -/
def extract_documents_from_analysis (data : JValue) (source_file : String) : ExtractOut :=
  bindJ (jget data "stage_1_enhanced_facts" (.obj [])) fun stage1 =>
  andThen (policySection stage1 source_file) fun _ =>
  andThen (docsSection stage1 source_file) fun _ =>
  andThen (reqsSection stage1 source_file) fun _ =>
  bindJ (jget data "stage_3_information_analysis" (.obj [])) fun stage3 =>
  andThen (briefingSection stage3 source_file) fun _ =>
  patternsSection stage3 source_file

/-- Model of the `try`/`except` around extraction in `_load_documents`
(lines 50–60): the exception is caught and logged, and whatever chunks were
appended before it stay in `self.documents`. -/
def loadRecord (data : JValue) (source_file : String) : List Chunk :=
  (extract_documents_from_analysis data source_file).1

/-- One entry of the list returned by `search`: the chunk text truncated to
500 characters, the similarity score, and the chunk's metadata. -/
structure SearchResult where
  content : String
  similarity : ℚ
  mtype : String
  meta : List (String × JValue)

/-- The similarity of the chunk at corpus position `i`
(`similarities[idx]`; positions are always in range in a fitted state). -/
def simAt (sims : List ℚ) (i : Nat) : ℚ :=
  sims.getD i 0

/-- Model of `np.argsort(similarities)`: the corpus positions in ascending
order of similarity.  `argsort` is modelled as a stable sort of the positions
`0, …, n-1` by their score, so equal scores keep ascending-position order. -/
def argsortAsc (sims : List ℚ) : List Nat :=
  (List.range sims.length).mergeSort (fun i j => simAt sims i ≤ simAt sims j)

/-- Line 192, `np.argsort(similarities)[::-1]`: the scan order of the ranking
loop, positions in descending order of similarity. -/
def topIndices (sims : List ℚ) : List Nat :=
  (argsortAsc sims).reverse

/-- Line 200, `if filter_by_type and doc["metadata"]["type"] != filter_by_type:`.
`none` models `filter_by_type=None`; `some ""` is falsy in Python, so it
disables filtering just like `None`. -/
def typeSkip (filter_by_type : Option String) (doc : Chunk) : Bool :=
  match filter_by_type with
  | none => false
  | some t => t != "" && doc.mtype != t

/-- Lines 207–211: the result object appended for an accepted chunk. -/
def mkResult (doc : Chunk) (similarity : ℚ) : SearchResult :=
  ⟨pytake doc.content 500, similarity, doc.mtype, doc.meta⟩

/-- Lines 195–214: the ranking loop.  Walks the scan order, skipping filtered
and low-similarity chunks, appending accepted ones to `results`, and breaking
once `top_k ≤ len(results)` — the length test happens after the append. -/
def searchGo (docs : List Chunk) (sims : List ℚ) (filter_by_type : Option String)
    (top_k : Int) : List Nat → List SearchResult → List SearchResult
  | [], results => results
  | idx :: rest, results =>
    let doc := docs.getD idx default
    let similarity := simAt sims idx
    if typeSkip filter_by_type doc then
      searchGo docs sims filter_by_type top_k rest results
    else if similarity < 1/20 then
      searchGo docs sims filter_by_type top_k rest results
    else
      let results' := results ++ [mkResult doc similarity]
      if top_k ≤ (results'.length : Int) then results'
      else searchGo docs sims filter_by_type top_k rest results'

/-- The corpus positions whose chunks the ranking loop accepts, given that
`n` results were already accepted: the same walk as `searchGo`, recording
positions instead of building result objects. -/
def acceptedIdxs (docs : List Chunk) (sims : List ℚ) (filter_by_type : Option String)
    (top_k : Int) : List Nat → Nat → List Nat
  | [], _ => []
  | idx :: rest, n =>
    let doc := docs.getD idx default
    let similarity := simAt sims idx
    if typeSkip filter_by_type doc then
      acceptedIdxs docs sims filter_by_type top_k rest n
    else if similarity < 1/20 then
      acceptedIdxs docs sims filter_by_type top_k rest n
    else if top_k ≤ ((n + 1 : Nat) : Int) then [idx]
    else idx :: acceptedIdxs docs sims filter_by_type top_k rest (n + 1)

/-- Model of `search(query, top_k, filter_by_type)` (lines 170–220).
`docSims` models the pair of `self.doc_vectors` and the query: `none` when
`doc_vectors is None` (the vectorizer never fitted), otherwise the row
`cosine_similarity(vectorizer.transform([query]), doc_vectors)[0]` of one
similarity score per indexed chunk — the scores are kept abstract because the
TF-IDF math lives in the external sklearn library. -/
def search (docs : List Chunk) (docSims : Option (List ℚ)) (top_k : Int)
    (filter_by_type : Option String) : List SearchResult :=
  match docSims with
  | none => []
  | some sims =>
    if docs.isEmpty then []
    else searchGo docs sims filter_by_type top_k (topIndices sims) []

/-- A two-chunk corpus used as concrete input: the earlier-inserted chunk. -/
def chunkA : Chunk := ⟨"chunk A", "document", []⟩

/-- A two-chunk corpus used as concrete input: the later-inserted chunk. -/
def chunkB : Chunk := ⟨"chunk B", "requirement", []⟩

/-- The invariant every extracted chunk satisfies: the chunk's type records
which section emitted it, `document` text is cut at 1500 characters,
`requirement` and `action_pattern` text at 1000, while `policy_summary` and
`executive_summary` text is stored untruncated and is non-blank. -/
def ChunkProp (c : Chunk) : Prop :=
  (c.mtype = "policy_summary" ∧ pystrip c.content ≠ "")
  ∨ (c.mtype = "document" ∧ c.content.length ≤ 1500)
  ∨ (c.mtype = "requirement" ∧ c.content.length ≤ 1000)
  ∨ (c.mtype = "executive_summary" ∧ pystrip c.content ≠ "")
  ∨ (c.mtype = "action_pattern" ∧ c.content.length ≤ 1000)

/-- A 1501-character attribute value. -/
def longA : String := String.mk (List.replicate 1501 'a')

/-- A 1500-character all-whitespace attribute value. -/
def spaces1500 : String := String.mk (List.replicate 1500 ' ')

/-- A record whose policy summary text is 1503 characters long. -/
def recPolicyLong : JValue := .obj [("stage_1_enhanced_facts", .obj
  [("policy_plain_english_summary", .obj [("what_happened", .str longA)])])]

/-- A record whose `stage_1_enhanced_facts` value is a list, not a dict. -/
def recBadStage1 : JValue := .obj [("stage_1_enhanced_facts", .arr [])]

/-- A record with one new-document entry whose text is non-blank only beyond
the 1500-character truncation point. -/
def recBlankDoc : JValue := .obj [("stage_1_enhanced_facts", .obj
  [("comprehensive_document_analysis", .obj [("new_documents", .arr
    [.obj [("title", .str spaces1500), ("full_opening", .str "x")]])])])]

/-- A record with one ordinary new-document entry. -/
def recDocT : JValue := .obj [("stage_1_enhanced_facts", .obj
  [("comprehensive_document_analysis", .obj [("new_documents", .arr
    [.obj [("title", .str "T")]])])])]

/-- A record with one ordinary policy summary. -/
def recPolicyW : JValue := .obj [("stage_1_enhanced_facts", .obj
  [("policy_plain_english_summary", .obj [("what_happened", .str "w")])])]

/-- A record carrying neither of the two stage keys. -/
def kvsOther : List (String × JValue) := [("other", JValue.null)]

/-- The chunk extracted from `recDocT`. -/
def docChunkT : Chunk := ⟨"T  ", "document",
  [("title", .str "T"), ("url", .str ""), ("date", .str ""),
   ("source_file", .str "f"), ("section", .str "stage_1_documents")]⟩

/-- The chunk extracted from `recPolicyW`. -/
def policyChunkW : Chunk := ⟨"w  ", "policy_summary",
  [("source_file", .str "f"), ("section", .str "stage_1_policy_summary")]⟩

section SearchLemmas

/-- The ranking loop is the accepted-position walk, mapped through result
construction. -/
theorem searchGo_eq_map (docs : List Chunk) (sims : List ℚ) (f : Option String) (k : Int) :
    ∀ (idxs : List Nat) (acc : List SearchResult),
    searchGo docs sims f k idxs acc =
      acc ++ (acceptedIdxs docs sims f k idxs acc.length).map
        (fun i => mkResult (docs.getD i default) (simAt sims i))
  | [], acc => by simp [searchGo, acceptedIdxs]
  | idx :: rest, acc => by
    simp only [searchGo, acceptedIdxs, List.length_append, List.length_cons,
      List.length_nil, Nat.zero_add]
    split_ifs with h1 h2 h3
    · exact searchGo_eq_map docs sims f k rest acc
    · exact searchGo_eq_map docs sims f k rest acc
    · simp
    · rw [searchGo_eq_map docs sims f k rest
        (acc ++ [mkResult (docs.getD idx default) (simAt sims idx)])]
      simp [List.append_assoc]

/-- The accepted positions are a sublist of the scan order. -/
theorem acceptedIdxs_sublist (docs : List Chunk) (sims : List ℚ) (f : Option String) (k : Int) :
    ∀ (idxs : List Nat) (n : Nat), (acceptedIdxs docs sims f k idxs n).Sublist idxs
  | [], _ => by simp [acceptedIdxs]
  | idx :: rest, n => by
    simp only [acceptedIdxs]
    split
    · exact (acceptedIdxs_sublist docs sims f k rest n).cons idx
    · split
      · exact (acceptedIdxs_sublist docs sims f k rest n).cons idx
      · split
        · exact (List.nil_sublist rest).cons₂ idx
        · exact (acceptedIdxs_sublist docs sims f k rest (n + 1)).cons₂ idx

/-- Every accepted position passed the 0.05 similarity cutoff. -/
theorem acceptedIdxs_sim (docs : List Chunk) (sims : List ℚ) (f : Option String) (k : Int) :
    ∀ (idxs : List Nat) (n : Nat) (i : Nat),
      i ∈ acceptedIdxs docs sims f k idxs n → ¬ simAt sims i < 1/20
  | [], _, _ => by simp [acceptedIdxs]
  | idx :: rest, n, i => by
    simp only [acceptedIdxs]
    split
    · exact acceptedIdxs_sim docs sims f k rest n i
    · split
      · exact acceptedIdxs_sim docs sims f k rest n i
      · split
        · rename_i h1 h2 h3
          intro hm
          rw [List.mem_singleton] at hm
          subst hm
          exact h2
        · rename_i h1 h2 h3
          intro hm
          rcases List.mem_cons.mp hm with h | h
          · subst h; exact h2
          · exact acceptedIdxs_sim docs sims f k rest (n + 1) i h

/-- Every accepted position passed the type filter. -/
theorem acceptedIdxs_skip (docs : List Chunk) (sims : List ℚ) (f : Option String) (k : Int) :
    ∀ (idxs : List Nat) (n : Nat) (i : Nat),
      i ∈ acceptedIdxs docs sims f k idxs n → typeSkip f (docs.getD i default) = false
  | [], _, _ => by simp [acceptedIdxs]
  | idx :: rest, n, i => by
    simp only [acceptedIdxs]
    split
    · exact acceptedIdxs_skip docs sims f k rest n i
    · split
      · exact acceptedIdxs_skip docs sims f k rest n i
      · split
        · rename_i h1 h2 h3
          intro hm
          rw [List.mem_singleton] at hm
          subst hm
          exact Bool.eq_false_iff.mpr h1
        · rename_i h1 h2 h3
          intro hm
          rcases List.mem_cons.mp hm with h | h
          · subst h; exact Bool.eq_false_iff.mpr h1
          · exact acceptedIdxs_skip docs sims f k rest (n + 1) i h

/-- When the break threshold is already reached or one step away, at most one
more chunk is accepted: the length test happens only after an append. -/
theorem acceptedIdxs_len_le_one (docs : List Chunk) (sims : List ℚ) (f : Option String) (k : Int) :
    ∀ (idxs : List Nat) (n : Nat), k ≤ (n : Int) + 1 →
      (acceptedIdxs docs sims f k idxs n).length ≤ 1
  | [], _, _ => by simp [acceptedIdxs]
  | idx :: rest, n, hk => by
    simp only [acceptedIdxs]
    split
    · exact acceptedIdxs_len_le_one docs sims f k rest n hk
    · split
      · exact acceptedIdxs_len_le_one docs sims f k rest n hk
      · split
        · simp
        · rename_i h1 h2 h3
          exact absurd (by exact_mod_cast hk) h3

/-- With `n` results already accepted and `n < top_k`, at most `top_k - n`
more positions are accepted. -/
theorem acceptedIdxs_len_le (docs : List Chunk) (sims : List ℚ) (f : Option String) (k : Int) :
    ∀ (idxs : List Nat) (n : Nat), (n : Int) < k →
      ((acceptedIdxs docs sims f k idxs n).length : Int) ≤ k - n
  | [], _, hn => by simpa [acceptedIdxs] using by omega
  | idx :: rest, n, hn => by
    simp only [acceptedIdxs]
    split
    · exact acceptedIdxs_len_le docs sims f k rest n hn
    · split
      · exact acceptedIdxs_len_le docs sims f k rest n hn
      · split
        · simpa using by omega
        · rename_i h1 h2 h3
          have hn1 : ((n + 1 : Nat) : Int) < k := by
            push_cast at h3 ⊢
            omega
          have := acceptedIdxs_len_le docs sims f k rest (n + 1) hn1
          simp only [List.length_cons]
          push_cast at this ⊢
          omega

/-- If the filter rejects every corpus position, nothing is accepted. -/
theorem acceptedIdxs_eq_nil (docs : List Chunk) (sims : List ℚ) (f : Option String) (k : Int)
    (h : ∀ i, typeSkip f (docs.getD i default) = true) :
    ∀ (idxs : List Nat) (n : Nat), acceptedIdxs docs sims f k idxs n = []
  | [], _ => by simp [acceptedIdxs]
  | idx :: rest, n => by
    simp only [acceptedIdxs, h idx, if_true]
    exact acceptedIdxs_eq_nil docs sims f k h rest n

/-- The scan order lists positions in descending order of similarity. -/
theorem topIndices_sorted (sims : List ℚ) :
    (topIndices sims).Pairwise (fun i j => simAt sims j ≤ simAt sims i) := by
  have h := @List.sorted_mergeSort Nat
    (fun i j => decide (simAt sims i ≤ simAt sims j))
    (fun a b c hab hbc => by
      simp only [decide_eq_true_eq] at hab hbc ⊢
      exact le_trans hab hbc)
    (fun a b => by
      simp only [Bool.or_eq_true, decide_eq_true_eq]
      exact le_total _ _)
    (List.range sims.length)
  rw [topIndices, argsortAsc]
  rw [List.pairwise_reverse]
  exact h.imp (fun hab => by simpa using hab)

/-- The scan order has no repeated positions. -/
theorem topIndices_nodup (sims : List ℚ) : (topIndices sims).Nodup := by
  rw [topIndices, List.nodup_reverse]
  exact ((List.mergeSort_perm (List.range sims.length) _).nodup_iff).mpr (List.nodup_range _)

/-- Two positions in order are a sublist of `range`. -/
theorem pair_sublist_range {i j : Nat} :
    ∀ {n : Nat}, i < j → j < n → ([i, j] : List Nat).Sublist (List.range n)
  | 0, _, hj => by omega
  | m + 1, hij, hj => by
    by_cases h : j < m
    · exact (pair_sublist_range hij h).trans
        (by rw [List.range_succ]; exact List.sublist_append_left _ _)
    · have hjm : j = m := by omega
      subst hjm
      rw [List.range_succ]
      have h1 : ([i] : List Nat).Sublist (List.range j) :=
        List.singleton_sublist.mpr (List.mem_range.mpr hij)
      simpa using h1.append (List.Sublist.refl [j])

/-- Stability through the reversal: positions of equal similarity appear in
the scan order with the later corpus position first. -/
theorem pair_sublist_topIndices {sims : List ℚ} {i j : Nat} (hij : i < j)
    (hj : j < sims.length) (heq : simAt sims i = simAt sims j) :
    ([j, i] : List Nat).Sublist (topIndices sims) := by
  have hpair : ([i, j] : List Nat).Sublist (argsortAsc sims) := by
    rw [argsortAsc]
    refine List.pair_sublist_mergeSort
      (fun a b c hab hbc => by
        simp only [decide_eq_true_eq] at hab hbc ⊢
        exact le_trans hab hbc)
      (fun a b => by
        simp only [Bool.or_eq_true, decide_eq_true_eq]
        exact le_total _ _)
      (by simp [heq]) (pair_sublist_range hij hj)
  have := hpair.reverse
  simpa [topIndices] using this

/-- Two distinct members of a list occur in one of the two orders. -/
theorem sublist_pair_or {α : Type} {a b : α} :
    ∀ {l : List α}, a ∈ l → b ∈ l → a ≠ b → ([a, b].Sublist l) ∨ ([b, a].Sublist l) := by
  intro l
  induction l with
  | nil => simp
  | cons x xs ih =>
    intro ha hb hne
    by_cases hxa : x = a
    · subst hxa
      have hbx : b ∈ xs := by
        rcases List.mem_cons.mp hb with h | h
        · exact absurd h.symm hne
        · exact h
      exact Or.inl ((List.singleton_sublist.mpr hbx).cons₂ x)
    · by_cases hxb : x = b
      · subst hxb
        have hax : a ∈ xs := by
          rcases List.mem_cons.mp ha with h | h
          · exact absurd h.symm hxa
          · exact h
        exact Or.inr ((List.singleton_sublist.mpr hax).cons₂ x)
      · have hax : a ∈ xs := by
          rcases List.mem_cons.mp ha with h | h
          · exact absurd h.symm hxa
          · exact h
        have hbx : b ∈ xs := by
          rcases List.mem_cons.mp hb with h | h
          · exact absurd h.symm hxb
          · exact h
        rcases ih hax hbx hne with h | h
        · exact Or.inl (h.cons x)
        · exact Or.inr (h.cons x)

/-- In a duplicate-free list, a pair sublist fixes the relative order of its
two elements. -/
theorem indexOf_lt_of_pair_sublist {α : Type} [DecidableEq α] {a b : α} :
    ∀ {l : List α}, l.Nodup → [a, b].Sublist l → l.indexOf a < l.indexOf b := by
  intro l
  induction l with
  | nil => intro _ h; cases h
  | cons x xs ih =>
    intro hnd h
    rcases List.nodup_cons.mp hnd with ⟨hx, hnd'⟩
    cases h with
    | cons _ h' =>
      have ha : a ∈ xs := h'.subset (by simp)
      have hb : b ∈ xs := h'.subset (by simp)
      have hxa : x ≠ a := fun e => hx (by rw [e]; exact ha)
      have hxb : x ≠ b := fun e => hx (by rw [e]; exact hb)
      rw [List.indexOf_cons_ne _ hxa, List.indexOf_cons_ne _ hxb]
      exact Nat.succ_lt_succ (ih hnd' h')
    | cons₂ _ h' =>
      have hb : b ∈ xs := h'.subset (by simp)
      have hab : b ≠ a := fun e => hx (by rw [← e]; exact hb)
      rw [List.indexOf_cons_self, List.indexOf_cons_ne _ hab.symm]
      omega

/-- A pair sublist yields two ordered positions carrying its elements. -/
theorem pair_sublist_getElem {α : Type} {a b : α} :
    ∀ {l : List α}, [a, b].Sublist l →
      ∃ p q : Nat, p < q ∧ l[p]? = some a ∧ l[q]? = some b := by
  intro l
  induction l with
  | nil => intro h; cases h
  | cons x xs ih =>
    intro h
    cases h with
    | cons _ h' =>
      obtain ⟨p, q, hpq, hp, hq⟩ := ih h'
      refine ⟨p + 1, q + 1, by omega, ?_, ?_⟩
      · simpa using hp
      · simpa using hq
    | cons₂ _ h' =>
      have hb : b ∈ xs := h'.subset (by simp)
      obtain ⟨q, hq⟩ := List.mem_iff_getElem?.mp hb
      refine ⟨0, q + 1, by omega, ?_, ?_⟩
      · simp
      · simpa using hq

end SearchLemmas

section ExtractLemmas

/-- Membership in the output of a `.get` step comes from a successful get. -/
theorem mem_bindJ {r : Except String JValue} {k : JValue → ExtractOut} {c : Chunk}
    (h : c ∈ (bindJ r k).1) : ∃ v, r = .ok v ∧ c ∈ (k v).1 := by
  cases r with
  | error e => simp [bindJ] at h
  | ok v => exact ⟨v, rfl, h⟩

/-- Membership in the output of an iteration step comes from an iterable value. -/
theorem mem_bindIter {r : Except String (List JValue)} {k : List JValue → ExtractOut} {c : Chunk}
    (h : c ∈ (bindIter r k).1) : ∃ l, r = .ok l ∧ c ∈ (k l).1 := by
  cases r with
  | error e => simp [bindIter] at h
  | ok l => exact ⟨l, rfl, h⟩

/-- A chunk of a sequenced extraction came from one of the two pieces. -/
theorem mem_andThen {a : ExtractOut} {k : Unit → ExtractOut} {c : Chunk}
    (h : c ∈ (andThen a k).1) : c ∈ a.1 ∨ c ∈ (k ()).1 := by
  obtain ⟨cs, e⟩ := a
  cases e with
  | some e => simp only [andThen] at h; exact Or.inl h
  | none =>
    rcases hk : k () with ⟨cs', e'⟩
    simp only [andThen, hk] at h
    rcases List.mem_append.mp h with h | h
    · exact Or.inl h
    · exact Or.inr h

/-- A chunk passing the `if text.strip():` guard is the guarded chunk, and
the guard text is non-blank. -/
theorem mem_guard {text : String} {c ch : Chunk}
    (h : c ∈ (if pystrip text != "" then [ch] else [])) :
    c = ch ∧ pystrip text ≠ "" := by
  by_cases hs : (pystrip text != "") = true
  · rw [if_pos hs] at h
    exact ⟨List.mem_singleton.mp h, bne_iff_ne.mp hs⟩
  · rw [if_neg hs] at h
    cases h

/-- Truncation cuts at the requested length. -/
theorem pytake_length_le (s : String) (n : Nat) : (pytake s n).length ≤ n := by
  simp only [pytake, String.length]
  simp [List.length_take_le]

/-- Every policy-summary chunk carries untruncated non-blank text. -/
theorem policySection_prop (stage1 : JValue) (src : String) :
    ∀ c ∈ (policySection stage1 src).1,
      c.mtype = "policy_summary" ∧ pystrip c.content ≠ "" := by
  intro c hc
  simp only [policySection] at hc
  obtain ⟨policy, _, hc⟩ := mem_bindJ hc
  by_cases ht : truthy policy = true
  · rw [if_pos ht] at hc
    obtain ⟨wh, _, hc⟩ := mem_bindJ hc
    obtain ⟨wi, _, hc⟩ := mem_bindJ hc
    obtain ⟨kq, _, hc⟩ := mem_bindJ hc
    obtain ⟨he, hs⟩ := mem_guard hc
    subst he
    exact ⟨rfl, hs⟩
  · rw [if_neg ht] at hc
    cases hc

/-- Every executive-summary chunk carries untruncated non-blank text. -/
theorem briefingSection_prop (stage3 : JValue) (src : String) :
    ∀ c ∈ (briefingSection stage3 src).1,
      c.mtype = "executive_summary" ∧ pystrip c.content ≠ "" := by
  intro c hc
  simp only [briefingSection] at hc
  obtain ⟨briefing, _, hc⟩ := mem_bindJ hc
  by_cases ht : truthy briefing = true
  · rw [if_pos ht] at hc
    obtain ⟨bl, _, hc⟩ := mem_bindJ hc
    obtain ⟨bb, _, hc⟩ := mem_bindJ hc
    obtain ⟨he, hs⟩ := mem_guard hc
    subst he
    exact ⟨rfl, hs⟩
  · rw [if_neg ht] at hc
    cases hc

/-- Every chunk of the new-documents loop is a `document` cut at 1500. -/
theorem newDocsLoop_prop (src : String) :
    ∀ (l : List JValue) (c : Chunk), c ∈ (newDocsLoop src l).1 →
      c.mtype = "document" ∧ c.content.length ≤ 1500
  | [], c => by simp [newDocsLoop]
  | doc :: rest, c => by
    intro hc
    cases doc with
    | obj kvs =>
      rcases hrest : newDocsLoop src rest with ⟨cs, e⟩
      simp only [newDocsLoop, hrest] at hc
      rcases List.mem_append.mp hc with h | h
      · obtain ⟨he, _⟩ := mem_guard h
        subst he
        exact ⟨rfl, pytake_length_le _ _⟩
      · exact newDocsLoop_prop src rest c (by rw [hrest]; exact h)
    | null => simp [newDocsLoop] at hc
    | bool b => simp [newDocsLoop] at hc
    | num n => simp [newDocsLoop] at hc
    | str s => simp [newDocsLoop] at hc
    | arr xs => simp [newDocsLoop] at hc

/-- Every chunk of the requirements loop is a `requirement` cut at 1000. -/
theorem reqsLoop_prop (src : String) :
    ∀ (l : List JValue) (c : Chunk), c ∈ (reqsLoop src l).1 →
      c.mtype = "requirement" ∧ c.content.length ≤ 1000
  | [], c => by simp [reqsLoop]
  | req :: rest, c => by
    intro hc
    cases req with
    | obj kvs =>
      rcases hrest : reqsLoop src rest with ⟨cs, e⟩
      simp only [reqsLoop, hrest] at hc
      rcases List.mem_append.mp hc with h | h
      · obtain ⟨he, _⟩ := mem_guard h
        subst he
        exact ⟨rfl, pytake_length_le _ _⟩
      · exact reqsLoop_prop src rest c (by rw [hrest]; exact h)
    | null => simp [reqsLoop] at hc
    | bool b => simp [reqsLoop] at hc
    | num n => simp [reqsLoop] at hc
    | str s => simp [reqsLoop] at hc
    | arr xs => simp [reqsLoop] at hc

/-- Every chunk of the response-patterns loop is an `action_pattern` cut at 1000. -/
theorem patternsLoop_prop (src : String) :
    ∀ (l : List JValue) (c : Chunk), c ∈ (patternsLoop src l).1 →
      c.mtype = "action_pattern" ∧ c.content.length ≤ 1000
  | [], c => by simp [patternsLoop]
  | resp :: rest, c => by
    intro hc
    cases resp with
    | obj kvs =>
      rcases hrest : patternsLoop src rest with ⟨cs, e⟩
      simp only [patternsLoop, hrest] at hc
      rcases List.mem_append.mp hc with h | h
      · obtain ⟨he, _⟩ := mem_guard h
        subst he
        exact ⟨rfl, pytake_length_le _ _⟩
      · exact patternsLoop_prop src rest c (by rw [hrest]; exact h)
    | null => simp [patternsLoop] at hc
    | bool b => simp [patternsLoop] at hc
    | num n => simp [patternsLoop] at hc
    | str s => simp [patternsLoop] at hc
    | arr xs => simp [patternsLoop] at hc

/-- Every chunk of the new-documents section is a `document` cut at 1500. -/
theorem docsSection_prop (stage1 : JValue) (src : String) :
    ∀ c ∈ (docsSection stage1 src).1,
      c.mtype = "document" ∧ c.content.length ≤ 1500 := by
  intro c hc
  simp only [docsSection] at hc
  obtain ⟨_, _, hc⟩ := mem_bindJ hc
  obtain ⟨_, _, hc⟩ := mem_bindJ hc
  obtain ⟨l, _, hc⟩ := mem_bindIter hc
  exact newDocsLoop_prop src l c hc

/-- Every chunk of the requirements section is a `requirement` cut at 1000. -/
theorem reqsSection_prop (stage1 : JValue) (src : String) :
    ∀ c ∈ (reqsSection stage1 src).1,
      c.mtype = "requirement" ∧ c.content.length ≤ 1000 := by
  intro c hc
  simp only [reqsSection] at hc
  obtain ⟨_, _, hc⟩ := mem_bindJ hc
  obtain ⟨l, _, hc⟩ := mem_bindIter hc
  exact reqsLoop_prop src l c hc

/-- Every chunk of the response-patterns section is an `action_pattern` cut at 1000. -/
theorem patternsSection_prop (stage3 : JValue) (src : String) :
    ∀ c ∈ (patternsSection stage3 src).1,
      c.mtype = "action_pattern" ∧ c.content.length ≤ 1000 := by
  intro c hc
  simp only [patternsSection] at hc
  obtain ⟨_, _, hc⟩ := mem_bindJ hc
  obtain ⟨_, _, hc⟩ := mem_bindJ hc
  obtain ⟨l, _, hc⟩ := mem_bindIter hc
  exact patternsLoop_prop src l c hc

/-- Every chunk extraction ever appends satisfies the per-type invariant. -/
theorem extract_prop (data : JValue) (src : String) :
    ∀ c ∈ (extract_documents_from_analysis data src).1, ChunkProp c := by
  intro c hc
  simp only [extract_documents_from_analysis] at hc
  obtain ⟨stage1, _, hc⟩ := mem_bindJ hc
  rcases mem_andThen hc with h | hc
  · exact Or.inl (policySection_prop stage1 src c h)
  rcases mem_andThen hc with h | hc
  · exact Or.inr (Or.inl (docsSection_prop stage1 src c h))
  rcases mem_andThen hc with h | hc
  · exact Or.inr (Or.inr (Or.inl (reqsSection_prop stage1 src c h)))
  obtain ⟨stage3, _, hc⟩ := mem_bindJ hc
  rcases mem_andThen hc with h | hc
  · exact Or.inr (Or.inr (Or.inr (Or.inl (briefingSection_prop stage3 src c h))))
  exact Or.inr (Or.inr (Or.inr (Or.inr (patternsSection_prop stage3 src c hc))))

end ExtractLemmas

section ConcreteEval

/-- For a singleton score list the scan order is the single position. -/
theorem topIndices_one : topIndices [(1 : ℚ)] = [0] := by
  rw [topIndices, show argsortAsc [(1 : ℚ)] = [0] from List.mergeSort_of_sorted (by decide)]
  rfl

/-- For two equal scores the scan order is the reversed position order. -/
theorem topIndices_pair : topIndices [(1 : ℚ), 1] = [1, 0] := by
  rw [topIndices, show argsortAsc [(1 : ℚ), 1] = [0, 1] from List.mergeSort_of_sorted (by decide)]
  rfl

/-- On a non-empty corpus the ranker is the accepted-position walk mapped
through result construction. -/
theorem search_eq_map (docs : List Chunk) (sims : List ℚ) (k : Int) (f : Option String)
    (h : docs ≠ []) :
    search docs (some sims) k f =
      (acceptedIdxs docs sims f k (topIndices sims) 0).map
        (fun i => mkResult (docs.getD i default) (simAt sims i)) := by
  have hdef : search docs (some sims) k f =
      if docs.isEmpty then [] else searchGo docs sims f k (topIndices sims) [] := rfl
  rw [hdef, if_neg (by simpa [List.isEmpty_iff] using h)]
  simpa using searchGo_eq_map docs sims f k (topIndices sims) []

end ConcreteEval

section Claims

/-- C1 counterexample.  The claim "`top_k <= 0` yields an empty sequence" is
false on the code: the break test `len(results) >= top_k` runs only after a
result has been appended, so with `top_k = 0`, a one-chunk corpus whose chunk
scores similarity 1 yields one result, not zero. -/
theorem C1_counterexample : (search [chunkA] (some [(1 : ℚ)]) 0 none).length = 1 := by
  simp [search, topIndices_one, searchGo, simAt, typeSkip, mkResult, chunkA]
  norm_num

/-- C1, amended.  Calling search with `top_k <= 0` returns at most one result
(one when some chunk passes the filter and similarity cutoff, none
otherwise), because the top-k break is tested only after each append. -/
theorem C1_theorem (docs : List Chunk) (docSims : Option (List ℚ)) (top_k : Int)
    (f : Option String) (hk : top_k ≤ 0) :
    (search docs docSims top_k f).length ≤ 1 := by
  rcases docSims with _ | sims
  · simp [search]
  · by_cases hd : docs = []
    · simp [search, hd]
    · rw [search_eq_map docs sims top_k f hd, List.length_map]
      exact acceptedIdxs_len_le_one docs sims f top_k (topIndices sims) 0 (by omega)

/-- C1 witness: the amended bound at a concrete input. -/
theorem C1_witness : (search [chunkA] (some [(1 : ℚ)]) (-1) none).length ≤ 1 :=
  C1_theorem [chunkA] (some [(1 : ℚ)]) (-1) none (by decide)

/-- C2 counterexample.  The claim says equal-similarity chunks keep Corpus
insertion order (earlier first).  On a two-chunk corpus where both chunks
score 1, the code returns the later-inserted chunk first:
`np.argsort(similarities)[::-1]` reverses the stable ascending order, so ties
come out in reverse insertion order. -/
theorem C2_counterexample :
    (search [chunkA, chunkB] (some [(1 : ℚ), 1]) 5 none).map (fun r => r.content) =
      ["chunk B", "chunk A"] := by
  simp [search, topIndices_pair, searchGo, simAt, typeSkip, mkResult, chunkA, chunkB, pytake]
  norm_num

/-- C2, amended.  When two indexed chunks at corpus positions `i < j` have
equal similarity and both are accepted by the ranking walk, the
later-inserted chunk `j` appears before the earlier-inserted chunk `i` in the
returned results: the reversal of the ascending stable argsort puts ties in
reverse insertion order. -/
theorem C2_theorem (docs : List Chunk) (sims : List ℚ) (k : Int) (f : Option String)
    (i j : Nat) (hij : i < j) (hj : j < docs.length) (hlen : sims.length = docs.length)
    (heq : simAt sims i = simAt sims j)
    (hi : i ∈ acceptedIdxs docs sims f k (topIndices sims) 0)
    (hjm : j ∈ acceptedIdxs docs sims f k (topIndices sims) 0) :
    ∃ p q : Nat, p < q ∧
      (search docs (some sims) k f)[p]? = some (mkResult (docs.getD j default) (simAt sims j)) ∧
      (search docs (some sims) k f)[q]? = some (mkResult (docs.getD i default) (simAt sims i)) := by
  have hd : docs ≠ [] := by intro h; subst h; simp at hj
  have hne : j ≠ i := by omega
  have hsub := acceptedIdxs_sublist docs sims f k (topIndices sims) 0
  have hnd := topIndices_nodup sims
  have hpair : ([j, i] : List Nat).Sublist (topIndices sims) :=
    pair_sublist_topIndices hij (by omega) heq
  have hacc : ([j, i] : List Nat).Sublist (acceptedIdxs docs sims f k (topIndices sims) 0) := by
    rcases sublist_pair_or hjm hi hne with h | h
    · exact h
    · exfalso
      have h1 := indexOf_lt_of_pair_sublist hnd (h.trans hsub)
      have h2 := indexOf_lt_of_pair_sublist hnd hpair
      omega
  obtain ⟨p, q, hpq, hp, hq⟩ := pair_sublist_getElem hacc
  refine ⟨p, q, hpq, ?_, ?_⟩
  · rw [search_eq_map docs sims k f hd, List.getElem?_map, hp]; rfl
  · rw [search_eq_map docs sims k f hd, List.getElem?_map, hq]; rfl

/-- Evaluation of the accepted positions on the two-chunk tie example. -/
theorem acceptedIdxs_pair_eval :
    acceptedIdxs [chunkA, chunkB] [(1 : ℚ), 1] none 5 (topIndices [(1 : ℚ), 1]) 0 = [1, 0] := by
  rw [topIndices_pair]
  simp [acceptedIdxs, simAt, typeSkip, chunkA, chunkB]
  norm_num

/-- C2 witness: the amended ordering at a concrete input. -/
theorem C2_witness :
    ∃ p q : Nat, p < q ∧
      (search [chunkA, chunkB] (some [(1 : ℚ), 1]) 5 none)[p]? =
        some (mkResult ([chunkA, chunkB].getD 1 default) (simAt [(1 : ℚ), 1] 1)) ∧
      (search [chunkA, chunkB] (some [(1 : ℚ), 1]) 5 none)[q]? =
        some (mkResult ([chunkA, chunkB].getD 0 default) (simAt [(1 : ℚ), 1] 0)) :=
  C2_theorem [chunkA, chunkB] [(1 : ℚ), 1] 5 none 0 1 (by decide) (by decide) (by decide)
    (by decide) (by rw [acceptedIdxs_pair_eval]; decide)
    (by rw [acceptedIdxs_pair_eval]; decide)

set_option maxRecDepth 100000 in
/-- C3 counterexample.  The claim says every chunk's content is at most 1500
characters, including policy-summary chunks.  Policy-summary text is stored
without any truncation: a record whose `what_happened` attribute is 1501
characters long yields a policy-summary chunk of 1503 characters. -/
theorem C3_counterexample :
    ¬ (∀ c ∈ (extract_documents_from_analysis recPolicyLong "f").1,
        c.content.length ≤ 1500) := by decide

/-- C3, amended.  Truncation applies only to the three looped sections:
`document` chunks are cut at 1500 characters and `requirement` and
`action_pattern` chunks at 1000, while `policy_summary` and
`executive_summary` chunks are stored untruncated and may exceed 1500. -/
theorem C3_theorem (data : JValue) (src : String) (c : Chunk)
    (hc : c ∈ (extract_documents_from_analysis data src).1) :
    (c.mtype = "document" → c.content.length ≤ 1500) ∧
    ((c.mtype = "requirement" ∨ c.mtype = "action_pattern") → c.content.length ≤ 1000) := by
  have h := extract_prop data src c hc
  rw [ChunkProp] at h
  rcases h with ⟨h1, h2⟩ | ⟨h1, h2⟩ | ⟨h1, h2⟩ | ⟨h1, h2⟩ | ⟨h1, h2⟩ <;> constructor
  · intro hd; rw [h1] at hd; exact absurd hd (by decide)
  · intro hd; rcases hd with hd | hd <;> rw [h1] at hd <;> exact absurd hd (by decide)
  · intro _; exact h2
  · intro hd; rcases hd with hd | hd <;> rw [h1] at hd <;> exact absurd hd (by decide)
  · intro hd; rw [h1] at hd; exact absurd hd (by decide)
  · intro _; exact h2
  · intro hd; rw [h1] at hd; exact absurd hd (by decide)
  · intro hd; rcases hd with hd | hd <;> rw [h1] at hd <;> exact absurd hd (by decide)
  · intro hd; rw [h1] at hd; exact absurd hd (by decide)
  · intro _; exact h2

/-- Evaluation of extraction on the one-document record. -/
theorem extract_recDocT :
    (extract_documents_from_analysis recDocT "f").1 = [docChunkT] := by rfl

/-- C3 witness: the amended bounds at a concrete extracted chunk. -/
theorem C3_witness :
    (docChunkT.mtype = "document" → docChunkT.content.length ≤ 1500) ∧
    ((docChunkT.mtype = "requirement" ∨ docChunkT.mtype = "action_pattern") →
      docChunkT.content.length ≤ 1000) :=
  C3_theorem recDocT "f" docChunkT (by rw [extract_recDocT]; exact List.mem_singleton_self _)

/-- C4 counterexample.  The claim says extraction never raises and a
malformed nested structure costs only that section's chunks.  When
`stage_1_enhanced_facts` is a list instead of a dict, the very first nested
`.get` raises `AttributeError`, aborting extraction for the whole record. -/
theorem C4_counterexample :
    (extract_documents_from_analysis recBadStage1 "f").2 =
      some "AttributeError: .get on a non-dict" := by rfl

/-- C4, amended.  Extraction never raises for missing keys: a record carrying
neither stage key produces zero chunks and no exception.  A wrong-typed
nested structure, however, raises inside extraction; `_load_documents`
catches the exception per file, keeping the chunks appended before the
failure and losing the rest of that file, not just the bad section. -/
theorem C4_theorem (kvs : List (String × JValue)) (src : String)
    (h1 : kvs.lookup "stage_1_enhanced_facts" = none)
    (h3 : kvs.lookup "stage_3_information_analysis" = none) :
    extract_documents_from_analysis (.obj kvs) src = ([], none) := by
  simp only [extract_documents_from_analysis, jget, dget, h1, h3, Option.getD]
  rfl

/-- C4 witness: the amended no-raise behaviour at a concrete record. -/
theorem C4_witness : extract_documents_from_analysis (.obj kvsOther) "f" = ([], none) :=
  C4_theorem kvsOther "f" rfl rfl

/-- C5 counterexample.  The claim quantifies over every `k`; with `k = -1` on
a one-chunk corpus whose chunk scores similarity 1, the code returns one
result, which is more than `k`, because the break test runs only after the
first append. -/
theorem C5_counterexample :
    ¬ (((search [chunkB] (some [(1 : ℚ)]) (-1) none).length : Int) ≤ -1) := by
  have h : (search [chunkB] (some [(1 : ℚ)]) (-1) none).length = 1 := by
    simp [search, topIndices_one, searchGo, simAt, typeSkip, mkResult, chunkB]
    norm_num
  rw [h]; decide

/-- C5, amended.  For every non-empty corpus, every similarity row and every
`k >= 1`, search returns at most `k` results, and every returned result has
similarity at least 0.05.  (For `k <= 0` the code returns up to one result,
see C1.) -/
theorem C5_theorem (docs : List Chunk) (sims : List ℚ) (k : Int) (f : Option String)
    (hd : docs ≠ []) (hk : 1 ≤ k) :
    ((search docs (some sims) k f).length : Int) ≤ k ∧
    ∀ r ∈ search docs (some sims) k f, 1/20 ≤ r.similarity := by
  rw [search_eq_map docs sims k f hd]
  constructor
  · rw [List.length_map]
    have h := acceptedIdxs_len_le docs sims f k (topIndices sims) 0 (by omega)
    push_cast at h ⊢
    omega
  · intro r hr
    obtain ⟨i, hi, he⟩ := List.mem_map.mp hr
    subst he
    have h := acceptedIdxs_sim docs sims f k (topIndices sims) 0 i hi
    simpa [mkResult] using not_lt.mp h

/-- C5 witness: the amended bounds at a concrete input. -/
theorem C5_witness :
    ((search [chunkA] (some [(1 : ℚ)]) 3 none).length : Int) ≤ 3 ∧
    ∀ r ∈ search [chunkA] (some [(1 : ℚ)]) 3 none, 1/20 ≤ r.similarity :=
  C5_theorem [chunkA] [(1 : ℚ)] 3 none (by simp) (by decide)

/-- C6.  The result sequence returned by search is sorted by similarity in
descending order: adjacent results have non-increasing similarity.  The scan
order is descending by construction and the ranking walk returns a sublist of
it. -/
theorem C6_theorem (docs : List Chunk) (docSims : Option (List ℚ)) (k : Int)
    (f : Option String) :
    (search docs docSims k f).Pairwise (fun a b => b.similarity ≤ a.similarity) := by
  rcases docSims with _ | sims
  · simp [search]
  · by_cases hd : docs = []
    · simp [search, hd]
    · rw [search_eq_map docs sims k f hd, List.pairwise_map]
      have hsor := topIndices_sorted sims
      have hsub := acceptedIdxs_sublist docs sims f k (topIndices sims) 0
      exact (List.Pairwise.sublist hsub hsor).imp (fun h => h)

/-- C7.  When a non-empty `filter_by_type` string is supplied, every returned
result's metadata type equals it, and if no corpus chunk carries that type
the result is the empty sequence (no error: search is total in the model). -/
theorem C7_theorem (docs : List Chunk) (sims : List ℚ) (k : Int) (t : String) (ht : t ≠ "") :
    (∀ r ∈ search docs (some sims) k (some t), r.mtype = t) ∧
    ((∀ c ∈ docs, c.mtype ≠ t) → search docs (some sims) k (some t) = []) := by
  constructor
  · intro r hr
    by_cases hd : docs = []
    · simp [search, hd] at hr
    · rw [search_eq_map docs sims k (some t) hd] at hr
      obtain ⟨i, hi, he⟩ := List.mem_map.mp hr
      subst he
      have hskip := acceptedIdxs_skip docs sims (some t) k (topIndices sims) 0 i hi
      simp only [typeSkip, Bool.and_eq_false_iff, bne_eq_false_iff_eq] at hskip
      rcases hskip with h | h
      · exact absurd h ht
      · simpa [mkResult] using h
  · intro hall
    by_cases hd : docs = []
    · simp [search, hd]
    · rw [search_eq_map docs sims k (some t) hd]
      rw [acceptedIdxs_eq_nil docs sims (some t) k ?_ (topIndices sims) 0]
      · rfl
      · intro i
        by_cases hi : i < docs.length
        · have hmem : docs.getD i default ∈ docs := by
            rw [List.getD_eq_getElem docs default hi]
            exact List.getElem_mem hi
          have hne := hall _ hmem
          simp only [typeSkip, Bool.and_eq_true, bne_iff_ne]
          exact ⟨ht, hne⟩
        · have hdef : docs.getD i default = default := by
            rw [List.getD_eq_getElem?_getD, List.getElem?_eq_none (by omega)]
            rfl
          rw [hdef]
          simp [typeSkip, bne_iff_ne, ht]
          exact fun h => ht h.symm

/-- C7 witness: the filter behaviour at a concrete input. -/
theorem C7_witness :
    (∀ r ∈ search [chunkA, chunkB] (some [(1 : ℚ), 1]) 5 (some "document"),
      r.mtype = "document") ∧
    ((∀ c ∈ [chunkA, chunkB], c.mtype ≠ "document") →
      search [chunkA, chunkB] (some [(1 : ℚ), 1]) 5 (some "document") = []) :=
  C7_theorem [chunkA, chunkB] [(1 : ℚ), 1] 5 "document" (by decide)

/-- C8.  If the corpus is empty or the vector index was never successfully
fitted (`doc_vectors is None`), search returns the empty sequence instead of
raising; the model's search function is total, so no failure escapes it. -/
theorem C8_theorem (docs : List Chunk) (docSims : Option (List ℚ)) (k : Int)
    (f : Option String) (h : docs = [] ∨ docSims = none) :
    search docs docSims k f = [] := by
  rcases h with h | h
  · subst h; rcases docSims with _ | sims <;> simp [search]
  · subst h; rfl

/-- C8 witness: the empty-corpus case at a concrete input. -/
theorem C8_witness : search [] (some [(1 : ℚ)]) 5 none = [] :=
  C8_theorem [] (some [(1 : ℚ)]) 5 none (Or.inl rfl)

set_option maxRecDepth 100000 in
/-- C9 counterexample.  The claim says no chunk with blank derived text is
ever appended.  The blank-text check runs on the untruncated text, but the
stored content is truncated afterwards: a document entry whose first 1500
characters are spaces and whose only non-space character sits beyond the cut
passes the check yet stores an all-whitespace content. -/
theorem C9_counterexample :
    ¬ (∀ c ∈ (extract_documents_from_analysis recBlankDoc "f").1,
        pystrip c.content ≠ "") := by decide

/-- C9, amended.  The blank-text guard applies to the pre-truncation text, so
chunks of the untruncated sections — `policy_summary` and
`executive_summary` — always have content that is non-empty after trimming;
truncated chunks can be whitespace-only when the non-blank part of their text
lies beyond the truncation point. -/
theorem C9_theorem (data : JValue) (src : String) (c : Chunk)
    (hc : c ∈ (extract_documents_from_analysis data src).1)
    (ht : c.mtype = "policy_summary" ∨ c.mtype = "executive_summary") :
    pystrip c.content ≠ "" := by
  have h := extract_prop data src c hc
  rw [ChunkProp] at h
  rcases h with ⟨h1, h2⟩ | ⟨h1, h2⟩ | ⟨h1, h2⟩ | ⟨h1, h2⟩ | ⟨h1, h2⟩
  · exact h2
  · rcases ht with hx | hx <;> rw [h1] at hx <;> exact absurd hx (by decide)
  · rcases ht with hx | hx <;> rw [h1] at hx <;> exact absurd hx (by decide)
  · exact h2
  · rcases ht with hx | hx <;> rw [h1] at hx <;> exact absurd hx (by decide)

/-- Evaluation of extraction on the one-policy record. -/
theorem extract_recPolicyW :
    (extract_documents_from_analysis recPolicyW "f").1 = [policyChunkW] := by rfl

/-- C9 witness: the amended invariant at a concrete extracted chunk. -/
theorem C9_witness : pystrip policyChunkW.content ≠ "" :=
  C9_theorem recPolicyW "f" policyChunkW
    (by rw [extract_recPolicyW]; exact List.mem_singleton_self _) (Or.inl rfl)

/-- The ranking loop only looks at the filter through `typeSkip`, so filters
agreeing on every chunk produce identical walks. -/
theorem searchGo_filter_congr (docs : List Chunk) (sims : List ℚ) (k : Int)
    (f₁ f₂ : Option String) (h : ∀ c, typeSkip f₁ c = typeSkip f₂ c) :
    ∀ (idxs : List Nat) (acc : List SearchResult),
      searchGo docs sims f₁ k idxs acc = searchGo docs sims f₂ k idxs acc
  | [], acc => rfl
  | idx :: rest, acc => by
    simp only [searchGo, h]
    split_ifs
    · exact searchGo_filter_congr docs sims k f₁ f₂ h rest acc
    · exact searchGo_filter_congr docs sims k f₁ f₂ h rest acc
    · rfl
    · exact searchGo_filter_congr docs sims k f₁ f₂ h rest _

/-- C10.  Passing `filter_by_type=""` behaves exactly like passing no filter:
the guard `if filter_by_type and ...` treats the empty string as falsy, so
filtering is disabled and results of every metadata type may be returned. -/
theorem C10_theorem (docs : List Chunk) (docSims : Option (List ℚ)) (k : Int) :
    search docs docSims k (some "") = search docs docSims k none := by
  rcases docSims with _ | sims
  · rfl
  · have hdef : ∀ (f : Option String), search docs (some sims) k f =
        if docs.isEmpty then [] else searchGo docs sims f k (topIndices sims) [] :=
      fun f => rfl
    rw [hdef, hdef]
    split_ifs
    · rfl
    · exact searchGo_filter_congr docs sims k (some "") none
        (fun c => by simp [typeSkip]) (topIndices sims) []

end Claims
